import Mathlib

/-!
Verification of the room-registry / signal-mailbox core of a WebRTC
signaling server (`src/server.py`).

The shallow embedding models the process-wide `active_rooms` dict as an
association list from room id to `Room`.  Python dict semantics
(assignment replaces the value of an existing key, `del` removes it) are
captured by `setRoom` / `delRoom`.  Generated identifiers (UUID-derived
room and user ids) are modelled as explicit arguments to `createRoom`
and `joinRoom`.  A missing/empty request field is modelled as the empty
string, matching Python truthiness checks on string fields.
-/

/-- One entry of a room's signal mailbox, mirroring the dict
`{'from': ..., 'to': ..., 'signal': ..., 'processed': ...}` appended by
the `/api/signal` handler.  The Python key `from` is a Lean keyword, so
the field is named `fromId`; `signal` (the opaque payload) is named
`payload`. -/
structure Signal where
  fromId : String
  toId : String
  payload : String
  processed : Bool
deriving DecidableEq, Repr

/-- A room of `active_rooms`: the `users` list and the `signals`
mailbox.  A room freshly created by `create_room` has no `'signals'`
key; that is modelled by the empty mailbox, which is observationally
identical (the `'signals' in ...` guard of `get_signals` skips work that
is a no-op on the empty list, and `signal` initialises the key to `[]`
before appending). -/
structure Room where
  users : List String
  signals : List Signal
deriving DecidableEq, Repr

/-- The `active_rooms` registry. -/
abbrev ServerState := List (String × Room)

/-- Dict lookup: `active_rooms[room_id]` / `room_id in active_rooms`. -/
def lookupRoom (st : ServerState) (rid : String) : Option Room :=
  match st with
  | [] => none
  | (k, r) :: rest => if k = rid then some r else lookupRoom rest rid

/-- Dict assignment `active_rooms[room_id] = room`: replaces the value
of an existing key in place, otherwise appends a new key. -/
def setRoom (st : ServerState) (rid : String) (room : Room) : ServerState :=
  match st with
  | [] => [(rid, room)]
  | (k, r) :: rest =>
    if k = rid then (k, room) :: rest else (k, r) :: setRoom rest rid room

/-- Dict deletion `del active_rooms[room_id]`. -/
def delRoom (st : ServerState) (rid : String) : ServerState :=
  match st with
  | [] => []
  | (k, r) :: rest => if k = rid then rest else (k, r) :: delRoom rest rid

/-- The two error kinds of the core: HTTP 400 (missing/empty required
field) and HTTP 404 (room id not in the registry). -/
inductive ApiError where
  | missingParameter
  | notFound
deriving DecidableEq, Repr

/-- `create_room` (POST /api/create-room): the generated `room_id`
(first 8 chars of a UUID) is an explicit argument here.  Inserts a room
with an empty user list; never fails. -/
def createRoom (rid : String) (st : ServerState) :
    Except ApiError String × ServerState :=
  (Except.ok rid, setRoom st rid ⟨[], []⟩)

/-- `join_room` (POST /api/join-room/room_id): 404 if the room is
absent, otherwise appends the generated `user_id` (explicit argument)
and returns it with the new participant count. -/
def joinRoom (rid uid : String) (st : ServerState) :
    Except ApiError (String × Nat) × ServerState :=
  match lookupRoom st rid with
  | none => (Except.error ApiError.notFound, st)
  | some room =>
    let room2 : Room := { room with users := room.users ++ [uid] }
    (Except.ok (uid, room2.users.length), setRoom st rid room2)

/-- `leave_room` (POST /api/leave-room): 400 if `roomId` or `userId` is
missing/empty, 404 if the room is absent.  If the user is a member,
removes the first occurrence (`list.remove`); if that empties the user
list, deletes the room.  A non-member `userId` is a successful no-op. -/
def leaveRoom (rid uid : String) (st : ServerState) :
    Except ApiError Unit × ServerState :=
  if rid = "" ∨ uid = "" then (Except.error ApiError.missingParameter, st)
  else
    match lookupRoom st rid with
    | none => (Except.error ApiError.notFound, st)
    | some room =>
      if uid ∈ room.users then
        let users2 := room.users.erase uid
        if users2 = [] then (Except.ok (), delRoom st rid)
        else (Except.ok (), setRoom st rid { room with users := users2 })
      else (Except.ok (), st)

/-- `room_status` (GET /api/room-status/room_id): 404 if absent,
otherwise returns the participant count and user list; no mutation. -/
def roomStatus (rid : String) (st : ServerState) :
    Except ApiError (Nat × List String) × ServerState :=
  match lookupRoom st rid with
  | none => (Except.error ApiError.notFound, st)
  | some room => (Except.ok (room.users.length, room.users), st)

/-- `signal` (POST /api/signal): 400 if `roomId`, `userId` (sender) or
`signal` (payload) is missing/empty — `targetId` is NOT validated; 404
if the room is absent; otherwise appends
`{'from': user_id, 'to': target_id, 'signal': ..., 'processed': False}`
to the room's mailbox. -/
def sendSignal (rid fromId toId payload : String) (st : ServerState) :
    Except ApiError Unit × ServerState :=
  if rid = "" ∨ fromId = "" ∨ payload = "" then
    (Except.error ApiError.missingParameter, st)
  else
    match lookupRoom st rid with
    | none => (Except.error ApiError.notFound, st)
    | some room =>
      (Except.ok (),
        setRoom st rid
          { room with signals := room.signals ++ [⟨fromId, toId, payload, false⟩] })

/-- The scan loop of `get_signals`: walks the mailbox in order; every
entry with `to == user_id and not processed` contributes
`{'from': ..., 'signal': ...}` to the result and is marked
`processed = True` in place.  Returns (collected pairs, updated
mailbox). -/
def markMailbox (uid : String) : List Signal → List (String × String) × List Signal
  | [] => ([], [])
  | s :: rest =>
    let r := markMailbox uid rest
    if s.toId = uid ∧ s.processed = false then
      ((s.fromId, s.payload) :: r.1, { s with processed := true } :: r.2)
    else (r.1, s :: r.2)

/-- The cleanup comprehension of `get_signals`, position-indexed: entry
at absolute index `i` of a mailbox of pre-trim length `n` is kept iff
`not s['processed'] or i >= n - 20` (the `len(...)` in the Python
comprehension reads the pre-assignment list, so `n` is constant during
the trim; Lean's truncated `n - 20` agrees with Python because a
negative bound keeps everything, as does `n - 20 = 0`). -/
def trimGo (n : Nat) : Nat → List Signal → List Signal
  | _, [] => []
  | i, s :: rest =>
    if s.processed = false ∨ n - 20 ≤ i then s :: trimGo n (i + 1) rest
    else trimGo n (i + 1) rest

/-- The full cleanup: `[s for i, s in enumerate(signals) if not
s['processed'] or i >= len(signals) - 20]`. -/
def trimMailbox (l : List Signal) : List Signal := trimGo l.length 0 l

/-- `get_signals` (POST /api/get-signals): 400 if `roomId` or `userId`
is missing/empty, 404 if the room is absent; otherwise collects and
marks the caller's pending signals (`markMailbox`), then trims the
mailbox (`trimMailbox`), and returns the collected `(from, payload)`
pairs. -/
def pollSignals (rid uid : String) (st : ServerState) :
    Except ApiError (List (String × String)) × ServerState :=
  if rid = "" ∨ uid = "" then (Except.error ApiError.missingParameter, st)
  else
    match lookupRoom st rid with
    | none => (Except.error ApiError.notFound, st)
    | some room =>
      let r := markMailbox uid room.signals
      (Except.ok r.1, setRoom st rid { room with signals := trimMailbox r.2 })

/-- Number of currently-unprocessed signals in a mailbox. -/
def unprocessedCount (l : List Signal) : Nat :=
  (l.filter (fun s => !s.processed)).length

/-- One API request, with all generated identifiers explicit. -/
inductive Op where
  | create (rid : String)
  | join (rid uid : String)
  | leave (rid uid : String)
  | status (rid : String)
  | send (rid fromId toId payload : String)
  | poll (rid uid : String)
deriving DecidableEq, Repr

/-- State transition of one request (the response is discarded). -/
def stepOp (st : ServerState) : Op → ServerState
  | Op.create rid => (createRoom rid st).2
  | Op.join rid uid => (joinRoom rid uid st).2
  | Op.leave rid uid => (leaveRoom rid uid st).2
  | Op.status rid => (roomStatus rid st).2
  | Op.send rid fromId toId payload => (sendSignal rid fromId toId payload st).2
  | Op.poll rid uid => (pollSignals rid uid st).2

/-- Run a request trace from the empty registry. -/
def runOps (ops : List Op) : ServerState := ops.foldl stepOp []

/-- `true` iff the trace contains a `leave` on `rid` after the last
`create` of `rid` (or after the start, if `rid` was never created). -/
def leaveSinceCreate (rid : String) (ops : List Op) : Bool :=
  ops.foldl
    (fun b op =>
      match op with
      | Op.create r => if r = rid then false else b
      | Op.leave r _ => if r = rid then true else b
      | _ => b)
    false

/-- A sequence of `signal` requests to one room, all addressed to the
same recipient: each element of `msgs` is a `(sender, payload)` pair. -/
def sendSeq (rid toId : String) : List (String × String) → ServerState → ServerState
  | [], st => st
  | m :: rest, st => sendSeq rid toId rest (sendSignal rid m.1 toId m.2 st).2

/-- Request trace: create a room, send one signal to `"a"`, then twenty
signals to `"b"`. -/
def mixedMailboxOps : List Op :=
  Op.create "r" :: Op.send "r" "x" "a" "m" ::
    List.replicate 20 (Op.send "r" "x" "b" "p")

/-- Request trace: create a room, send 21 signals to `"b"`, poll as
`"b"` (processing them and trimming to 20), then send one more. -/
def staleMailboxOps : List Op :=
  Op.create "r" ::
    (List.replicate 21 (Op.send "r" "x" "b" "p") ++
      [Op.poll "r" "b", Op.send "r" "x" "b" "q"])

/-- Key uniqueness of the registry, automatic for a Python dict; every
state reachable from the empty registry satisfies it. -/
def keysNodup (st : ServerState) : Prop := (st.map Prod.fst).Nodup

/-- Whether a request is a `create_room` of room `rid`. -/
def createsRoom (op : Op) (rid : String) : Bool :=
  match op with
  | Op.create r => decide (r = rid)
  | _ => false

/-- Whether a request, executed in state `st`, is a `leave_room` call
that removes the last remaining member of room `rid`: a leave on `rid`
with both arguments non-empty, on a room that is present, whose
`user_id` is a member and whose removal empties the membership — the
exact guard under which `leave_room` deletes the room. -/
def removesLastMember (st : ServerState) (op : Op) (rid : String) : Bool :=
  match op with
  | Op.leave r uid =>
    decide (r = rid) && !(decide (r = "")) && !(decide (uid = "")) &&
      (match lookupRoom st r with
       | none => false
       | some room => decide (uid ∈ room.users) && decide (room.users.erase uid = []))
  | _ => false

/-- One step of the claim-side room-lifetime model: a create of `rid`
makes it alive, a leave that removes its last remaining member kills
it, every other request leaves its status alone. -/
def stepAlive (st : ServerState) (op : Op) (rid : String) (b : Bool) : Bool :=
  if createsRoom op rid then true
  else if removesLastMember st op rid then false
  else b

/-- The claim-side room-lifetime model over a whole trace: `rid` is
alive after `ops` iff it has been created and no `leave_room` call has
removed its last remaining member since the most recent creation. -/
def aliveModel (rid : String) (ops : List Op) : Bool :=
  (ops.foldl (fun p op => (stepOp p.1 op, stepAlive p.1 op rid p.2))
    (([] : ServerState), false)).2

theorem lookupRoom_setRoom_self (st : ServerState) (rid : String) (room : Room) :
    lookupRoom (setRoom st rid room) rid = some room := by
  induction st with
  | nil => simp [setRoom, lookupRoom]
  | cons p rest ih =>
    by_cases h : p.1 = rid
    · simp [setRoom, lookupRoom, h]
    · simp [setRoom, lookupRoom, h, ih]

theorem lookupRoom_setRoom_other (st : ServerState) (rid rid2 : String)
    (room : Room) (h : rid2 ≠ rid) :
    lookupRoom (setRoom st rid room) rid2 = lookupRoom st rid2 := by
  have hne : ¬ rid = rid2 := fun hc => h hc.symm
  induction st with
  | nil => simp [setRoom, lookupRoom, hne]
  | cons p rest ih =>
    by_cases hp : p.1 = rid
    · simp [setRoom, lookupRoom, hp, hne]
    · by_cases hq : p.1 = rid2
      · simp [setRoom, lookupRoom, hp, hq, h]
      · simp [setRoom, lookupRoom, hp, hq, ih]

theorem lookupRoom_eq_none_of_not_mem (st : ServerState) (rid : String)
    (h : rid ∉ st.map Prod.fst) : lookupRoom st rid = none := by
  induction st with
  | nil => rfl
  | cons p rest ih =>
    simp only [List.map_cons, List.mem_cons] at h
    push_neg at h
    have hp : ¬ p.1 = rid := fun hc => h.1 hc.symm
    simp [lookupRoom, hp, ih h.2]

theorem lookupRoom_delRoom_self (st : ServerState) (rid : String)
    (hnd : keysNodup st) : lookupRoom (delRoom st rid) rid = none := by
  induction st with
  | nil => rfl
  | cons p rest ih =>
    simp only [keysNodup, List.map_cons, List.nodup_cons] at hnd
    by_cases h : p.1 = rid
    · simp only [delRoom, if_pos h]
      exact lookupRoom_eq_none_of_not_mem rest rid (h ▸ hnd.1)
    · simp [delRoom, lookupRoom, h, ih hnd.2]

theorem lookupRoom_delRoom_other (st : ServerState) (rid rid2 : String)
    (h : rid2 ≠ rid) : lookupRoom (delRoom st rid) rid2 = lookupRoom st rid2 := by
  have hne : ¬ rid = rid2 := fun hc => h hc.symm
  induction st with
  | nil => rfl
  | cons p rest ih =>
    by_cases hp : p.1 = rid
    · have hq : ¬ p.1 = rid2 := fun hc => h (hc ▸ hp)
      simp [delRoom, lookupRoom, hp, hq, hne]
    · by_cases hq : p.1 = rid2
      · simp [delRoom, lookupRoom, hp, hq, h]
      · simp [delRoom, lookupRoom, hp, hq, ih]

/-- The scan's collected result: exactly the unprocessed signals
addressed to the caller, in order, projected to (from, payload). -/
theorem markMailbox_fst (uid : String) (l : List Signal) :
    (markMailbox uid l).1 =
      (l.filter (fun s => decide (s.toId = uid) && !s.processed)).map
        (fun s => (s.fromId, s.payload)) := by
  induction l with
  | nil => rfl
  | cons s rest ih =>
    by_cases h : s.toId = uid ∧ s.processed = false
    · simp [markMailbox, List.filter_cons, h.1, h.2, ih]
    · rw [Decidable.not_and_iff_or_not] at h
      rcases h with h | h
      · simp [markMailbox, List.filter_cons, h, ih]
      · rw [Bool.not_eq_false] at h
        simp [markMailbox, List.filter_cons, h, ih]

/-- The scan's in-place update: each entry addressed to the caller and
not yet processed is marked processed; everything else is untouched. -/
theorem markMailbox_snd (uid : String) (l : List Signal) :
    (markMailbox uid l).2 =
      l.map (fun s =>
        if s.toId = uid ∧ s.processed = false then { s with processed := true } else s) := by
  induction l with
  | nil => rfl
  | cons s rest ih =>
    by_cases h : s.toId = uid ∧ s.processed = false
    · simp [markMailbox, h, ih]
    · simp [markMailbox, h, ih]

/-- Positional trim, solved form: positions before `n - 20 - i` are
filtered on `processed`, the rest are kept unconditionally. -/
theorem trimGo_eq_take_drop (n : Nat) (l : List Signal) : ∀ i : Nat,
    trimGo n i l =
      (l.take (n - 20 - i)).filter (fun s => !s.processed) ++ l.drop (n - 20 - i) := by
  induction l with
  | nil => intro i; simp [trimGo]
  | cons s rest ih =>
    intro i
    by_cases hi : n - 20 ≤ i
    · have h0 : n - 20 - i = 0 := by omega
      have h1 : n - 20 - (i + 1) = 0 := by omega
      rw [trimGo, if_pos (Or.inr hi), ih (i + 1), h1, h0]
      simp
    · have hk : n - 20 - i = (n - 20 - (i + 1)) + 1 := by omega
      rw [hk, List.take_succ_cons, List.drop_succ_cons]
      by_cases hp : s.processed = false
      · rw [trimGo, if_pos (Or.inl hp), ih (i + 1)]
        simp [List.filter_cons, hp]
      · have hc : ¬ (s.processed = false ∨ n - 20 ≤ i) := by tauto
        rw [trimGo, if_neg hc, ih (i + 1)]
        have hp2 : s.processed = true := by
          revert hp; cases s.processed <;> simp
        simp [List.filter_cons, hp2]

/-- The cleanup keeps every unprocessed entry and the (at most 20) last
positions, dropping processed entries before that window. -/
theorem trimMailbox_eq_take_drop (l : List Signal) :
    trimMailbox l =
      (l.take (l.length - 20)).filter (fun s => !s.processed) ++
        l.drop (l.length - 20) := by
  have h := trimGo_eq_take_drop l.length l 0
  simpa [trimMailbox] using h

/-- The cleanup only deletes entries: the trimmed mailbox is a sublist
(order-preserving selection) of the original. -/
theorem trimMailbox_sublist (l : List Signal) : List.Sublist (trimMailbox l) l := by
  rw [trimMailbox_eq_take_drop]
  have h1 : List.Sublist
      ((l.take (l.length - 20)).filter (fun s => !s.processed))
      (l.take (l.length - 20)) := List.filter_sublist _
  have h2 := List.Sublist.append h1 (List.Sublist.refl (l.drop (l.length - 20)))
  rw [List.take_append_drop] at h2
  exact h2

/-- Any Boolean selection that only picks unprocessed entries is
untouched by the cleanup: in particular no unprocessed signal is ever
dropped. -/
theorem filter_trimMailbox (q : Signal → Bool)
    (hq : ∀ s, q s = true → s.processed = false) (l : List Signal) :
    (trimMailbox l).filter q = l.filter q := by
  rw [trimMailbox_eq_take_drop, List.filter_append, List.filter_comm,
    List.filter_eq_self.mpr, ← List.filter_append, List.take_append_drop]
  intro s hs
  simp [hq s (List.of_mem_filter hs)]

/-- Post-trim mailbox size is bounded by the number of unprocessed
entries plus the 20-entry retention window. -/
theorem length_trimMailbox_le (l : List Signal) :
    (trimMailbox l).length ≤ unprocessedCount l + 20 := by
  rw [trimMailbox_eq_take_drop, List.length_append]
  have h1 : ((l.take (l.length - 20)).filter (fun s => !s.processed)).length ≤
      unprocessedCount l :=
    List.Sublist.length_le (List.Sublist.filter _ (List.take_sublist _ _))
  have h2 : (l.drop (l.length - 20)).length ≤ 20 := by
    rw [List.length_drop]; omega
  omega

/-- The cleanup preserves the unprocessed entries exactly. -/
theorem unprocessed_trimMailbox (l : List Signal) :
    (trimMailbox l).filter (fun s => !s.processed) = l.filter (fun s => !s.processed) :=
  filter_trimMailbox _ (fun s hs => by simpa using hs) l

/-- Positional trim as an index-predicate selection over the enumerated
mailbox (the claim-side reading of the Python comprehension). -/
theorem trimGo_eq_enumFrom (n : Nat) (l : List Signal) : ∀ i : Nat,
    trimGo n i l =
      ((l.enumFrom i).filter
        (fun p => !p.2.processed || decide (n - 20 ≤ p.1))).map Prod.snd := by
  induction l with
  | nil => intro i; simp [trimGo]
  | cons s rest ih =>
    intro i
    by_cases hc : s.processed = false ∨ n - 20 ≤ i
    · have hb : (!s.processed || decide (n - 20 ≤ i)) = true := by
        rcases hc with h | h <;> simp [h]
      rw [trimGo, if_pos hc, List.enumFrom, ih (i + 1), List.filter_cons,
        if_pos hb, List.map_cons]
    · push_neg at hc
      have hni : ¬ (n - 20 ≤ i) := by omega
      have hb : (!s.processed || decide (n - 20 ≤ i)) = false := by
        have hp : s.processed = true := by
          have := hc.1; revert this; cases s.processed <;> simp
        simp [hp, hni]
      have hcnot : ¬ (s.processed = false ∨ n - 20 ≤ i) := by
        rintro (h | h)
        · exact hc.1 h
        · exact hni h
      rw [trimGo, if_neg hcnot, List.enumFrom, ih (i + 1), List.filter_cons,
        if_neg (fun h => Bool.false_ne_true (hb ▸ h))]

/-- The full cleanup in claim form: entry at 0-indexed position `i` of
the pre-trim mailbox (length `N`) is kept iff it is unprocessed or
`i ≥ N - 20`, with relative order preserved. -/
theorem trimMailbox_eq_enum (l : List Signal) :
    trimMailbox l =
      ((l.enum.filter
        (fun p => !p.2.processed || decide (l.length - 20 ≤ p.1))).map Prod.snd) := by
  have h := trimGo_eq_enumFrom l.length l 0
  simpa [trimMailbox, List.enum] using h

/-- Any Boolean selection ignoring the caller's signals is untouched by
the scan's in-place marking. -/
theorem filter_markMailbox (uid : String) (q : Signal → Bool)
    (hq : ∀ s, q s = true → ¬ s.toId = uid) (l : List Signal) :
    ((markMailbox uid l).2).filter q = l.filter q := by
  induction l with
  | nil => rfl
  | cons s rest ih =>
    by_cases h : s.toId = uid ∧ s.processed = false
    · have hqs : q s = false := by
        cases hqs2 : q s
        · rfl
        · exact absurd h.1 (hq s hqs2)
      have hqs3 : q { s with processed := true } = false := by
        cases hqs2 : q { s with processed := true }
        · rfl
        · exact absurd (show Signal.toId { s with processed := true } = uid from h.1)
            (hq _ hqs2)
      simp only [markMailbox, if_pos h]
      rw [List.filter_cons, List.filter_cons]
      simp [hqs, hqs3, ih]
    · simp only [markMailbox, if_neg h]
      rw [List.filter_cons, List.filter_cons]
      simp [ih]

/-- After the scan, every mailbox entry addressed to the caller is
processed. -/
theorem markMailbox_toId_processed (uid : String) (l : List Signal) :
    ∀ s ∈ (markMailbox uid l).2, s.toId = uid → s.processed = true := by
  induction l with
  | nil => intro s hs; simp [markMailbox] at hs
  | cons a rest ih =>
    intro s hs hto
    by_cases h : a.toId = uid ∧ a.processed = false
    · simp only [markMailbox, if_pos h, List.mem_cons] at hs
      rcases hs with hs | hs
      · rw [hs]
      · exact ih s hs hto
    · simp only [markMailbox, if_neg h, List.mem_cons] at hs
      rcases hs with hs | hs
      · subst hs
        rcases Decidable.not_and_iff_or_not.mp h with h1 | h1
        · exact absurd hto h1
        · exact Bool.not_eq_false _ |>.mp h1 |> fun hh => by
            revert h1; cases s.processed <;> simp
      · exact ih s hs hto

/-- If the mailbox holds no unprocessed signal for the caller, the scan
collects nothing and changes nothing. -/
theorem markMailbox_of_noPending (uid : String) (l : List Signal)
    (h : ∀ s ∈ l, s.toId = uid → s.processed = true) :
    markMailbox uid l = ([], l) := by
  induction l with
  | nil => rfl
  | cons a rest ih =>
    have ha : ¬ (a.toId = uid ∧ a.processed = false) := by
      rintro ⟨h1, h2⟩
      have := h a (List.mem_cons_self a rest) h1
      rw [this] at h2
      cases h2
    have hrest := ih (fun s hs hto => h s (List.mem_cons_of_mem a hs) hto)
    simp [markMailbox, ha, hrest]

/-- Evaluation of a successful poll: scan, mark, trim, store back. -/
theorem pollSignals_eq_of_some (rid uid : String) (st : ServerState) (room : Room)
    (hr : ¬ rid = "") (hu : ¬ uid = "") (hl : lookupRoom st rid = some room) :
    pollSignals rid uid st =
      (Except.ok (markMailbox uid room.signals).1,
        setRoom st rid
          { room with signals := trimMailbox (markMailbox uid room.signals).2 }) := by
  simp [pollSignals, hr, hu, hl]

/-- Inversion of a successful poll. -/
theorem pollSignals_ok_inv (rid uid : String) (st : ServerState)
    (sigs : List (String × String)) (st1 : ServerState)
    (h : pollSignals rid uid st = (Except.ok sigs, st1)) :
    ¬ rid = "" ∧ ¬ uid = "" ∧ ∃ room, lookupRoom st rid = some room ∧
      sigs = (markMailbox uid room.signals).1 ∧
      st1 = setRoom st rid
        { room with signals := trimMailbox (markMailbox uid room.signals).2 } := by
  by_cases hr : rid = "" ∨ uid = ""
  · rw [pollSignals, if_pos hr] at h
    simp at h
  · push_neg at hr
    rcases hl : lookupRoom st rid with _ | room
    · rw [pollSignals, if_neg (by tauto)] at h
      rw [hl] at h
      simp at h
    · rw [pollSignals, if_neg (by tauto)] at h
      rw [hl] at h
      simp only [Prod.mk.injEq, Except.ok.injEq] at h
      exact ⟨hr.1, hr.2, room, rfl, h.1.symm, h.2.symm⟩

/-- Evaluation of a successful send: append one unprocessed record. -/
theorem sendSignal_eq_of_some (rid fromId toId payload : String)
    (st : ServerState) (room : Room)
    (hr : ¬ rid = "") (hf : ¬ fromId = "") (hp : ¬ payload = "")
    (hl : lookupRoom st rid = some room) :
    sendSignal rid fromId toId payload st =
      (Except.ok (),
        setRoom st rid
          { room with signals := room.signals ++ [⟨fromId, toId, payload, false⟩] }) := by
  simp [sendSignal, hr, hf, hp, hl]

/-- A run of successful sends appends the corresponding records, in
order, to the target room's mailbox. -/
theorem sendSeq_lookup (rid toId : String) (msgs : List (String × String))
    (st : ServerState) (room : Room) (hr : ¬ rid = "")
    (hl : lookupRoom st rid = some room)
    (hm : ∀ m ∈ msgs, ¬ m.1 = "" ∧ ¬ m.2 = "") :
    lookupRoom (sendSeq rid toId msgs st) rid =
      some { room with
        signals := room.signals ++ msgs.map (fun m => Signal.mk m.1 toId m.2 false) } := by
  induction msgs generalizing st room with
  | nil =>
    simpa [sendSeq] using hl
  | cons m rest ih =>
    have hm1 := hm m (List.mem_cons_self m rest)
    rw [sendSeq, sendSignal_eq_of_some rid m.1 toId m.2 st room hr hm1.1 hm1.2 hl]
    have ih2 := ih (setRoom st rid
        { room with signals := room.signals ++ [Signal.mk m.1 toId m.2 false] })
      { room with signals := room.signals ++ [Signal.mk m.1 toId m.2 false] }
      (lookupRoom_setRoom_self st rid _)
      (fun m2 hm2 => hm m2 (List.mem_cons_of_mem m hm2))
    rw [ih2]
    simp [List.append_assoc]

/-- Keys of the registry after an assignment: an old key or the
assigned one. -/
theorem mem_map_fst_setRoom (st : ServerState) (rid : String) (room : Room)
    (x : String) (hx : x ∈ (setRoom st rid room).map Prod.fst) :
    x ∈ st.map Prod.fst ∨ x = rid := by
  induction st with
  | nil =>
    simp [setRoom] at hx
    exact Or.inr hx
  | cons p rest ih =>
    by_cases h : p.1 = rid
    · simp only [setRoom, if_pos h, List.map_cons, List.mem_cons] at hx
      rcases hx with hx | hx
      · exact Or.inl (by simp [hx])
      · exact Or.inl (by simp [hx])
    · simp only [setRoom, if_neg h, List.map_cons, List.mem_cons] at hx
      rcases hx with hx | hx
      · exact Or.inl (by simp [hx])
      · rcases ih hx with h2 | h2
        · exact Or.inl (by simp [h2])
        · exact Or.inr h2

/-- Dict assignment keeps the registry keys unique. -/
theorem keysNodup_setRoom (st : ServerState) (rid : String) (room : Room)
    (hnd : keysNodup st) : keysNodup (setRoom st rid room) := by
  induction st with
  | nil => simp [setRoom, keysNodup]
  | cons p rest ih =>
    by_cases h : p.1 = rid
    · simp only [setRoom, if_pos h]
      simpa [keysNodup] using hnd
    · simp only [setRoom, if_neg h]
      simp only [keysNodup, List.map_cons, List.nodup_cons] at hnd ⊢
      refine ⟨?_, ih hnd.2⟩
      intro hx
      rcases mem_map_fst_setRoom rest rid room p.1 hx with h2 | h2
      · exact hnd.1 h2
      · exact h h2

/-- Dict deletion only removes entries. -/
theorem delRoom_sublist (st : ServerState) (rid : String) :
    List.Sublist (delRoom st rid) st := by
  induction st with
  | nil => exact List.Sublist.refl []
  | cons p rest ih =>
    by_cases h : p.1 = rid
    · simp only [delRoom, if_pos h]
      exact List.sublist_cons_self p rest
    · simp only [delRoom, if_neg h]
      exact List.Sublist.cons₂ p ih

/-- Dict deletion keeps the registry keys unique. -/
theorem keysNodup_delRoom (st : ServerState) (rid : String)
    (hnd : keysNodup st) : keysNodup (delRoom st rid) :=
  List.Nodup.sublist (List.Sublist.map Prod.fst (delRoom_sublist st rid)) hnd

/-- Presence of a key after an assignment. -/
theorem lookupRoom_setRoom_isSome (st : ServerState) (rid rid2 : String)
    (room : Room) :
    (lookupRoom (setRoom st rid room) rid2).isSome =
      if rid2 = rid then true else (lookupRoom st rid2).isSome := by
  by_cases h : rid2 = rid
  · subst h
    rw [lookupRoom_setRoom_self, if_pos rfl]
    rfl
  · rw [lookupRoom_setRoom_other st rid rid2 room h, if_neg h]

/-- Evaluation of `leave_room` when the user is a member and the
removal empties the membership: the room is deleted. -/
theorem leaveRoom_eq_of_erase_nil (rid uid : String) (st : ServerState)
    (room : Room) (hm : ¬ (rid = "" ∨ uid = ""))
    (hl : lookupRoom st rid = some room) (hmem : uid ∈ room.users)
    (hemp : room.users.erase uid = []) :
    leaveRoom rid uid st = (Except.ok (), delRoom st rid) := by
  rw [leaveRoom, if_neg hm]
  rw [hl]
  simp [hmem, hemp]

/-- Evaluation of `leave_room` when the user is a member and others
remain: the membership shrinks, the room stays. -/
theorem leaveRoom_eq_of_erase_ne (rid uid : String) (st : ServerState)
    (room : Room) (hm : ¬ (rid = "" ∨ uid = ""))
    (hl : lookupRoom st rid = some room) (hmem : uid ∈ room.users)
    (hemp : ¬ room.users.erase uid = []) :
    leaveRoom rid uid st =
      (Except.ok (), setRoom st rid { room with users := room.users.erase uid }) := by
  rw [leaveRoom, if_neg hm]
  rw [hl]
  simp [hmem, hemp]

/-- Evaluation of `leave_room` when the user is not a member: no-op. -/
theorem leaveRoom_eq_of_not_mem (rid uid : String) (st : ServerState)
    (room : Room) (hm : ¬ (rid = "" ∨ uid = ""))
    (hl : lookupRoom st rid = some room) (hmem : uid ∉ room.users) :
    leaveRoom rid uid st = (Except.ok (), st) := by
  rw [leaveRoom, if_neg hm]
  rw [hl]
  simp [hmem]

/-- Every request keeps the registry keys unique: each handler either
returns the state unchanged, reassigns an existing key, inserts a fresh
key, or deletes a key. -/
theorem keysNodup_stepOp (st : ServerState) (op : Op) (hnd : keysNodup st) :
    keysNodup (stepOp st op) := by
  cases op with
  | create r => exact keysNodup_setRoom st r _ hnd
  | join r uid =>
    rcases hl : lookupRoom st r with _ | room
    · simp only [stepOp, joinRoom]
      rw [hl]
      exact hnd
    · simp only [stepOp, joinRoom]
      rw [hl]
      exact keysNodup_setRoom st r _ hnd
  | leave r uid =>
    by_cases hm : r = "" ∨ uid = ""
    · simp only [stepOp, leaveRoom, if_pos hm]
      exact hnd
    · rcases hl : lookupRoom st r with _ | room
      · simp only [stepOp, leaveRoom, if_neg hm]
        rw [hl]
        exact hnd
      · by_cases hmem : uid ∈ room.users
        · by_cases hemp : room.users.erase uid = []
          · simp only [stepOp]
            rw [leaveRoom_eq_of_erase_nil r uid st room hm hl hmem hemp]
            exact keysNodup_delRoom st r hnd
          · simp only [stepOp]
            rw [leaveRoom_eq_of_erase_ne r uid st room hm hl hmem hemp]
            exact keysNodup_setRoom st r _ hnd
        · simp only [stepOp]
          rw [leaveRoom_eq_of_not_mem r uid st room hm hl hmem]
          exact hnd
  | status r =>
    rcases hl : lookupRoom st r with _ | room <;>
      · simp only [stepOp, roomStatus]
        rw [hl]
        exact hnd
  | send r f t p =>
    by_cases hm : r = "" ∨ f = "" ∨ p = ""
    · simp only [stepOp, sendSignal, if_pos hm]
      exact hnd
    · push_neg at hm
      rcases hl : lookupRoom st r with _ | room
      · have hstep : (sendSignal r f t p st).2 = st := by
          rw [sendSignal, if_neg (by tauto)]
          rw [hl]
        simp only [stepOp]
        rw [hstep]
        exact hnd
      · simp only [stepOp]
        rw [sendSignal_eq_of_some r f t p st room hm.1 hm.2.1 hm.2.2 hl]
        exact keysNodup_setRoom st r _ hnd
  | poll r u =>
    by_cases hm : r = "" ∨ u = ""
    · simp only [stepOp, pollSignals, if_pos hm]
      exact hnd
    · push_neg at hm
      rcases hl : lookupRoom st r with _ | room
      · have hstep : (pollSignals r u st).2 = st := by
          rw [pollSignals, if_neg (by tauto)]
          rw [hl]
        simp only [stepOp]
        rw [hstep]
        exact hnd
      · simp only [stepOp]
        rw [pollSignals_eq_of_some r u st room hm.1 hm.2 hl]
        exact keysNodup_setRoom st r _ hnd

/-- Presence of a room after one request, characterized by the
claim-side lifetime model: a create of `rid` makes it present, a
leave_room that removes its last remaining member removes it, every
other request (including create/join/leave/send/poll on other rooms,
no-op leaves, status reads, and polls) preserves its presence. -/
theorem isSome_stepOp (st : ServerState) (op : Op) (rid : String)
    (hnd : keysNodup st) :
    (lookupRoom (stepOp st op) rid).isSome =
      stepAlive st op rid (lookupRoom st rid).isSome := by
  cases op with
  | create r =>
    simp only [stepOp, createRoom]
    rw [lookupRoom_setRoom_isSome]
    by_cases h : r = rid
    · simp [stepAlive, createsRoom, removesLastMember, h]
    · have h2 : ¬ rid = r := fun hh => h hh.symm
      simp [stepAlive, createsRoom, removesLastMember, h, h2]
  | join r uid =>
    rcases hl : lookupRoom st r with _ | room
    · simp only [stepOp, joinRoom]
      rw [hl]
      simp [stepAlive, createsRoom, removesLastMember]
    · simp only [stepOp, joinRoom]
      rw [hl, lookupRoom_setRoom_isSome]
      by_cases h : rid = r
      · subst h
        rw [hl]
        simp [stepAlive, createsRoom, removesLastMember]
      · simp [stepAlive, createsRoom, removesLastMember, h]
  | leave r uid =>
    by_cases hm : r = "" ∨ uid = ""
    · simp only [stepOp, leaveRoom, if_pos hm]
      rcases hm with h | h <;>
        simp [stepAlive, createsRoom, removesLastMember, h]
    · rcases hl : lookupRoom st r with _ | room
      · simp only [stepOp, leaveRoom, if_neg hm]
        rw [hl]
        simp [stepAlive, createsRoom, removesLastMember, hl]
      · push_neg at hm
        by_cases hmem : uid ∈ room.users
        · by_cases hemp : room.users.erase uid = []
          · simp only [stepOp]
            rw [leaveRoom_eq_of_erase_nil r uid st room (by tauto) hl hmem hemp]
            by_cases h : rid = r
            · subst h
              rw [lookupRoom_delRoom_self st rid hnd]
              simp [stepAlive, createsRoom, removesLastMember, hl, hmem, hemp,
                hm.1, hm.2]
            · rw [lookupRoom_delRoom_other st r rid h]
              have h2 : ¬ r = rid := fun hh => h hh.symm
              simp [stepAlive, createsRoom, removesLastMember, h2]
          · simp only [stepOp]
            rw [leaveRoom_eq_of_erase_ne r uid st room (by tauto) hl hmem hemp]
            rw [lookupRoom_setRoom_isSome]
            have hne1 : room.users ≠ [] := fun hh => by
              rw [hh] at hmem
              cases hmem
            have hne2 : room.users ≠ [uid] := fun hh => by
              rw [hh] at hemp
              exact hemp (by simp)
            by_cases h : rid = r
            · subst h
              rw [hl]
              simp [stepAlive, createsRoom, removesLastMember, hl, hne1, hne2,
                hm.1, hm.2]
            · have h2 : ¬ r = rid := fun hh => h hh.symm
              simp [stepAlive, createsRoom, removesLastMember, h, h2]
        · simp only [stepOp]
          rw [leaveRoom_eq_of_not_mem r uid st room (by tauto) hl hmem]
          simp [stepAlive, createsRoom, removesLastMember, hl, hmem]
  | status r =>
    rcases hl : lookupRoom st r with _ | room <;>
      · simp only [stepOp, roomStatus]
        rw [hl]
        simp [stepAlive, createsRoom, removesLastMember]
  | send r f t p =>
    by_cases hm : r = "" ∨ f = "" ∨ p = ""
    · simp only [stepOp, sendSignal, if_pos hm]
      simp [stepAlive, createsRoom, removesLastMember]
    · push_neg at hm
      rcases hl : lookupRoom st r with _ | room
      · have hstep : (sendSignal r f t p st).2 = st := by
          rw [sendSignal, if_neg (by tauto)]
          rw [hl]
        simp only [stepOp]
        rw [hstep]
        simp [stepAlive, createsRoom, removesLastMember]
      · simp only [stepOp]
        rw [sendSignal_eq_of_some r f t p st room hm.1 hm.2.1 hm.2.2 hl]
        rw [lookupRoom_setRoom_isSome]
        by_cases h : rid = r
        · subst h
          rw [hl]
          simp [stepAlive, createsRoom, removesLastMember]
        · simp [stepAlive, createsRoom, removesLastMember, h]
  | poll r u =>
    by_cases hm : r = "" ∨ u = ""
    · simp only [stepOp, pollSignals, if_pos hm]
      simp [stepAlive, createsRoom, removesLastMember]
    · push_neg at hm
      rcases hl : lookupRoom st r with _ | room
      · have hstep : (pollSignals r u st).2 = st := by
          rw [pollSignals, if_neg (by tauto)]
          rw [hl]
        simp only [stepOp]
        rw [hstep]
        simp [stepAlive, createsRoom, removesLastMember]
      · simp only [stepOp]
        rw [pollSignals_eq_of_some r u st room hm.1 hm.2 hl]
        rw [lookupRoom_setRoom_isSome]
        by_cases h : rid = r
        · subst h
          rw [hl]
          simp [stepAlive, createsRoom, removesLastMember]
        · simp [stepAlive, createsRoom, removesLastMember, h]

/-- Folding a trace: actual presence of `rid` tracks the lifetime
model, from any starting state with unique keys whose presence bit is
`b`. -/
theorem alive_foldl_aux (rid : String) : ∀ (ops : List Op) (st : ServerState)
    (b : Bool), keysNodup st → (lookupRoom st rid).isSome = b →
    (lookupRoom (ops.foldl stepOp st) rid).isSome =
      (ops.foldl (fun p op => (stepOp p.1 op, stepAlive p.1 op rid p.2))
        (st, b)).2 := by
  intro ops
  induction ops with
  | nil =>
    intro st b hnd hb
    simpa using hb
  | cons op rest ih =>
    intro st b hnd hb
    rw [List.foldl_cons, List.foldl_cons]
    exact ih (stepOp st op) (stepAlive st op rid b) (keysNodup_stepOp st op hnd)
      (by rw [isSome_stepOp st op rid hnd, hb])

example : markMailbox "b" [⟨"a", "b", "p", false⟩, ⟨"a", "c", "q", false⟩] =
    ([("a", "p")], [⟨"a", "b", "p", true⟩, ⟨"a", "c", "q", false⟩]) := by decide

example :
    (pollSignals "r" "b" [("r", ⟨["a", "b"], [⟨"a", "b", "p", false⟩]⟩)]).1 =
    Except.ok [("a", "p")] := rfl

example : runOps [Op.create "r", Op.leave "r" "u"] = [("r", ⟨[], []⟩)] := by decide

example : aliveModel "r" [Op.create "r", Op.leave "r" "u"] = true := by decide

example :
    aliveModel "r" [Op.create "r", Op.join "r" "u", Op.leave "r" "u"] = false := by
  decide

example :
    aliveModel "r"
      [Op.create "r", Op.join "r" "u", Op.leave "r" "u", Op.create "r"] = true := by
  decide

/-- C1: For every poll_signals call on an existing room with non-empty
user_id, letting N be the mailbox length before trimming (the mailbox
after the scan has marked the caller's signals), the post-trim mailbox
contains exactly those pre-trim entries at 0-indexed positions i with
`not processed[i]` or `i ≥ N - 20`, in their original relative order;
in particular the unprocessed entries survive the trim exactly,
regardless of position. -/
theorem claim_C1_poll_retention_policy (rid uid : String) (st : ServerState)
    (room : Room) (hr : ¬ rid = "") (hu : ¬ uid = "")
    (hl : lookupRoom st rid = some room) :
    ∃ room2, lookupRoom (pollSignals rid uid st).2 rid = some room2 ∧
      room2.signals =
        (((markMailbox uid room.signals).2).enum.filter
          (fun p => !p.2.processed ||
            decide ((markMailbox uid room.signals).2.length - 20 ≤ p.1))).map Prod.snd ∧
      room2.signals.filter (fun s => !s.processed) =
        ((markMailbox uid room.signals).2).filter (fun s => !s.processed) := by
  refine ⟨{ room with
      signals := trimMailbox (markMailbox uid room.signals).2 }, ?_, ?_, ?_⟩
  · rw [pollSignals_eq_of_some rid uid st room hr hu hl]
    exact lookupRoom_setRoom_self st rid _
  · exact trimMailbox_eq_enum _
  · exact unprocessed_trimMailbox _

/-- Witness for C1 at a concrete state: room `"r"` holds one processed
and one pending signal for `"a"`. -/
theorem claim_C1_poll_retention_policy_wit :
    ∃ room2,
      lookupRoom (pollSignals "r" "a"
        [("r", Room.mk ["a"] [Signal.mk "b" "a" "p" true, Signal.mk "b" "a" "q" false])]).2
        "r" = some room2 ∧
      room2.signals =
        (((markMailbox "a" [Signal.mk "b" "a" "p" true, Signal.mk "b" "a" "q" false]).2).enum.filter
          (fun p => !p.2.processed ||
            decide ((markMailbox "a"
              [Signal.mk "b" "a" "p" true, Signal.mk "b" "a" "q" false]).2.length - 20 ≤ p.1))).map
          Prod.snd ∧
      room2.signals.filter (fun s => !s.processed) =
        ((markMailbox "a"
          [Signal.mk "b" "a" "p" true, Signal.mk "b" "a" "q" false]).2).filter
          (fun s => !s.processed) :=
  claim_C1_poll_retention_policy "r" "a"
    [("r", Room.mk ["a"] [Signal.mk "b" "a" "p" true, Signal.mk "b" "a" "q" false])]
    (Room.mk ["a"] [Signal.mk "b" "a" "p" true, Signal.mk "b" "a" "q" false])
    (by decide) (by decide) rfl

/-- C2, counterexample: after `mixedMailboxOps` (one pending signal for
`"a"` in front of twenty for `"b"`), a poll by `"b"` marks the twenty
and the trim keeps all 21 entries (the pending one is unprocessed, the
twenty are inside the last-20 window), yet only one signal is
unprocessed, and 21 > max 20 1.  This refutes the claimed bound
`max(20, unprocessed)`. -/
theorem claim_C2_counterexample :
    (lookupRoom (pollSignals "r" "b" (runOps mixedMailboxOps)).2 "r").map
        (fun room => room.signals.length) = some 21 ∧
    (lookupRoom (pollSignals "r" "b" (runOps mixedMailboxOps)).2 "r").map
        (fun room => unprocessedCount room.signals) = some 1 ∧
    ¬ (21 ≤ max 20 1) := by
  refine ⟨by decide, by decide, by decide⟩

/-- C2 (amended): after every poll_signals call on an existing room, the
room's mailbox length is at most (number of currently-unprocessed
signals) + 20. -/
theorem claim_C2_amended_poll_size_bound (rid uid : String) (st : ServerState)
    (room : Room) (hr : ¬ rid = "") (hu : ¬ uid = "")
    (hl : lookupRoom st rid = some room) :
    ∃ room2, lookupRoom (pollSignals rid uid st).2 rid = some room2 ∧
      room2.signals.length ≤ unprocessedCount room2.signals + 20 := by
  refine ⟨{ room with
      signals := trimMailbox (markMailbox uid room.signals).2 }, ?_, ?_⟩
  · rw [pollSignals_eq_of_some rid uid st room hr hu hl]
    exact lookupRoom_setRoom_self st rid _
  · show (trimMailbox (markMailbox uid room.signals).2).length ≤
      unprocessedCount (trimMailbox (markMailbox uid room.signals).2) + 20
    have h1 := length_trimMailbox_le ((markMailbox uid room.signals).2)
    have h2 : unprocessedCount (trimMailbox ((markMailbox uid room.signals).2)) =
        unprocessedCount ((markMailbox uid room.signals).2) := by
      unfold unprocessedCount
      rw [unprocessed_trimMailbox]
    omega

/-- Witness for the amended C2 at a concrete state. -/
theorem claim_C2_amended_poll_size_bound_wit :
    ∃ room2,
      lookupRoom (pollSignals "r" "a"
        [("r", Room.mk ["a"] [Signal.mk "b" "a" "p" false])]).2 "r" = some room2 ∧
      room2.signals.length ≤ unprocessedCount room2.signals + 20 :=
  claim_C2_amended_poll_size_bound "r" "a"
    [("r", Room.mk ["a"] [Signal.mk "b" "a" "p" false])]
    (Room.mk ["a"] [Signal.mk "b" "a" "p" false])
    (by decide) (by decide) rfl

/-- C3, counterexample to the claimed registry invariant at the
explicit trace [create "r", leave "r" "u"]: room "r" is still in the
registry with empty membership although a leave_room call on it has
occurred since its creation — `leave_room` with a user that is not a
member never deletes the room, even when the membership is empty, so
"present iff ≥1 member or no leave_room call has occurred since" is
false (both disjuncts fail while the room is present). -/
theorem claim_C3_counterexample :
    lookupRoom (runOps [Op.create "r", Op.leave "r" "u"]) "r" =
      some (Room.mk [] []) ∧
    leaveSinceCreate "r" [Op.create "r", Op.leave "r" "u"] = true :=
  ⟨by decide, by decide⟩

/-- C3 (amended): in every state reachable by any sequence of
create_room, join_room, leave_room, room_status, send_signal and
poll_signals operations, a room is present in the registry if and only
if it has been created and no leave_room call has removed its last
remaining member since its most recent creation (`aliveModel`): a
leave_room call deletes the room exactly when it removes a member and
thereby empties the membership, while a leave_room call that removes no
member — and every other operation — leaves even an empty-membership
room in place. -/
theorem claim_C3_amended_registry_invariant (ops : List Op) (rid : String) :
    (lookupRoom (runOps ops) rid).isSome = aliveModel rid ops := by
  have h := alive_foldl_aux rid ops [] false (by simp [keysNodup]) rfl
  simpa [runOps, aliveModel] using h

/-- C4: a successful poll marks every signal it returns; an immediate
second poll with the same room_id and user_id succeeds and returns the
empty signal sequence — no signal is delivered twice to the same
user_id. -/
theorem claim_C4_second_poll_empty (rid uid : String) (st st1 : ServerState)
    (sigs : List (String × String))
    (h : pollSignals rid uid st = (Except.ok sigs, st1)) :
    (pollSignals rid uid st1).1 = Except.ok [] := by
  obtain ⟨hr, hu, room, hl, hsigs, hst1⟩ := pollSignals_ok_inv rid uid st sigs st1 h
  subst hst1
  have hproc : ∀ s ∈ trimMailbox (markMailbox uid room.signals).2,
      s.toId = uid → s.processed = true := fun s hs hto =>
    markMailbox_toId_processed uid room.signals s
      ((trimMailbox_sublist (markMailbox uid room.signals).2).subset hs) hto
  have hmark := markMailbox_of_noPending uid
    (trimMailbox (markMailbox uid room.signals).2) hproc
  rw [pollSignals_eq_of_some rid uid _
    { room with signals := trimMailbox (markMailbox uid room.signals).2 }
    hr hu (lookupRoom_setRoom_self st rid _)]
  simp [hmark]

/-- Witness for C4: one pending signal for "a", polled twice. -/
theorem claim_C4_second_poll_empty_wit :
    (pollSignals "r" "a" [("r", Room.mk ["a"] [Signal.mk "b" "a" "p" true])]).1 =
      Except.ok [] :=
  claim_C4_second_poll_empty "r" "a"
    [("r", Room.mk ["a"] [Signal.mk "b" "a" "p" false])]
    [("r", Room.mk ["a"] [Signal.mk "b" "a" "p" true])]
    [("b", "p")] rfl

/-- C5: sending a sequence of signals (sender/payload pairs `msgs`,
with markers encoded in the payloads) to one recipient in one room,
when the room exists and holds no pending signal for that recipient,
makes a subsequent poll by the recipient return exactly those signals
as (from, payload) pairs in arrival order. -/
theorem claim_C5_poll_preserves_arrival_order (rid uid : String)
    (st : ServerState) (room : Room) (msgs : List (String × String))
    (hr : ¬ rid = "") (hu : ¬ uid = "")
    (hl : lookupRoom st rid = some room)
    (hnp : ∀ s ∈ room.signals, s.toId = uid → s.processed = true)
    (hm : ∀ m ∈ msgs, ¬ m.1 = "" ∧ ¬ m.2 = "") :
    (pollSignals rid uid (sendSeq rid uid msgs st)).1 = Except.ok msgs := by
  have hlook := sendSeq_lookup rid uid msgs st room hr hl hm
  rw [pollSignals_eq_of_some rid uid _ _ hr hu hlook]
  show Except.ok (markMailbox uid
    (room.signals ++ msgs.map (fun m => Signal.mk m.1 uid m.2 false))).1 = _
  rw [markMailbox_fst, List.filter_append]
  have hold : room.signals.filter (fun s => decide (s.toId = uid) && !s.processed) = [] := by
    rw [List.filter_eq_nil_iff]
    intro s hs
    by_cases ht : s.toId = uid
    · simp [hnp s hs ht]
    · simp [ht]
  have hnew : (msgs.map (fun m => Signal.mk m.1 uid m.2 false)).filter
      (fun s => decide (s.toId = uid) && !s.processed) =
      msgs.map (fun m => Signal.mk m.1 uid m.2 false) := by
    rw [List.filter_eq_self]
    intro s hs
    obtain ⟨m, hm2, rfl⟩ := List.mem_map.mp hs
    simp
  rw [hold, hnew, List.nil_append, List.map_map]
  have hcomp : ((fun s : Signal => (s.fromId, s.payload)) ∘
      fun m : String × String => Signal.mk m.1 uid m.2 false) = id :=
    funext fun m => Prod.mk.eta
  rw [hcomp, List.map_id]

/-- Witness for C5: two signals sent to "u" in a fresh room. -/
theorem claim_C5_poll_preserves_arrival_order_wit :
    (pollSignals "r" "u"
      (sendSeq "r" "u" [("x", "m0"), ("x", "m1")] [("r", Room.mk ["u"] [])])).1 =
      Except.ok [("x", "m0"), ("x", "m1")] :=
  claim_C5_poll_preserves_arrival_order "r" "u"
    [("r", Room.mk ["u"] [])] (Room.mk ["u"] []) [("x", "m0"), ("x", "m1")]
    (by decide) (by decide) rfl (by intro s hs; simp at hs) (by decide)

/-- C6: for a room whose membership is exactly one member, that member's
leave_room deletes the room; afterwards room_status, join_room and
send_signal (with its own required parameters present) on that id all
fail with NotFound, and re-creating the id makes it resolvable again. -/
theorem claim_C6_last_member_leave_not_found (st : ServerState)
    (rid u v fromId toId payload : String) (sigs : List Signal)
    (hnd : keysNodup st) (hr : ¬ rid = "") (hu : ¬ u = "")
    (hf : ¬ fromId = "") (hp : ¬ payload = "")
    (hl : lookupRoom st rid = some (Room.mk [u] sigs)) :
    (leaveRoom rid u st).1 = Except.ok () ∧
    lookupRoom (leaveRoom rid u st).2 rid = none ∧
    (roomStatus rid (leaveRoom rid u st).2).1 = Except.error ApiError.notFound ∧
    (joinRoom rid v (leaveRoom rid u st).2).1 = Except.error ApiError.notFound ∧
    (sendSignal rid fromId toId payload (leaveRoom rid u st).2).1 =
      Except.error ApiError.notFound ∧
    lookupRoom (createRoom rid (leaveRoom rid u st).2).2 rid = some (Room.mk [] []) := by
  have heval : leaveRoom rid u st = (Except.ok (), delRoom st rid) := by
    rw [leaveRoom, if_neg (by tauto)]
    rw [hl]
    simp
  have hnone : lookupRoom (delRoom st rid) rid = none :=
    lookupRoom_delRoom_self st rid hnd
  rw [heval]
  refine ⟨rfl, hnone, ?_, ?_, ?_, ?_⟩
  · rw [roomStatus, hnone]
  · rw [joinRoom, hnone]
  · rw [sendSignal, if_neg (by tauto), hnone]
  · exact lookupRoom_setRoom_self _ _ _

/-- Witness for C6. -/
theorem claim_C6_last_member_leave_not_found_wit :
    (leaveRoom "r" "u" [("r", Room.mk ["u"] [])]).1 = Except.ok () ∧
    lookupRoom (leaveRoom "r" "u" [("r", Room.mk ["u"] [])]).2 "r" = none ∧
    (roomStatus "r" (leaveRoom "r" "u" [("r", Room.mk ["u"] [])]).2).1 =
      Except.error ApiError.notFound ∧
    (joinRoom "r" "v" (leaveRoom "r" "u" [("r", Room.mk ["u"] [])]).2).1 =
      Except.error ApiError.notFound ∧
    (sendSignal "r" "f" "t" "p" (leaveRoom "r" "u" [("r", Room.mk ["u"] [])]).2).1 =
      Except.error ApiError.notFound ∧
    lookupRoom (createRoom "r" (leaveRoom "r" "u" [("r", Room.mk ["u"] [])]).2).2 "r" =
      some (Room.mk [] []) :=
  claim_C6_last_member_leave_not_found [("r", Room.mk ["u"] [])]
    "r" "u" "v" "f" "t" "p" []
    (by unfold keysNodup; decide) (by decide) (by decide) (by decide) (by decide) rfl

/-- C7: send_signal fails with MissingParameter exactly when room_id,
from_id (userId) or payload is empty — an empty to_id (targetId) alone
never fails; otherwise NotFound exactly when the room is absent;
otherwise it succeeds, appends one unprocessed record with the given
fields to the tail of that room's mailbox, and leaves every other room
untouched (no membership check on from_id or to_id). -/
theorem claim_C7_send_signal_semantics (st : ServerState)
    (rid fromId toId payload : String) :
    ((rid = "" ∨ fromId = "" ∨ payload = "") →
      sendSignal rid fromId toId payload st =
        (Except.error ApiError.missingParameter, st)) ∧
    (¬ rid = "" → ¬ fromId = "" → ¬ payload = "" →
      lookupRoom st rid = none →
      sendSignal rid fromId toId payload st =
        (Except.error ApiError.notFound, st)) ∧
    (∀ room, ¬ rid = "" → ¬ fromId = "" → ¬ payload = "" →
      lookupRoom st rid = some room →
      (sendSignal rid fromId toId payload st).1 = Except.ok () ∧
      lookupRoom (sendSignal rid fromId toId payload st).2 rid =
        some { room with
          signals := room.signals ++ [Signal.mk fromId toId payload false] } ∧
      ∀ rid2, ¬ rid2 = rid →
        lookupRoom (sendSignal rid fromId toId payload st).2 rid2 =
          lookupRoom st rid2) := by
  refine ⟨?_, ?_, ?_⟩
  · intro h
    rw [sendSignal, if_pos h]
  · intro h1 h2 h3 h4
    rw [sendSignal, if_neg (by tauto), h4]
  · intro room h1 h2 h3 h4
    rw [sendSignal_eq_of_some rid fromId toId payload st room h1 h2 h3 h4]
    exact ⟨rfl, lookupRoom_setRoom_self st rid _,
      fun rid2 hne => lookupRoom_setRoom_other st rid rid2 _ hne⟩

/-- Witness for C7: a send with empty targetId succeeds and appends. -/
theorem claim_C7_send_signal_semantics_wit :
    (sendSignal "r" "a" "" "p" [("r", Room.mk ["a"] [])]).1 = Except.ok () ∧
    lookupRoom (sendSignal "r" "a" "" "p" [("r", Room.mk ["a"] [])]).2 "r" =
      some (Room.mk ["a"] [Signal.mk "a" "" "p" false]) ∧
    ∀ rid2, ¬ rid2 = "r" →
      lookupRoom (sendSignal "r" "a" "" "p" [("r", Room.mk ["a"] [])]).2 rid2 =
        lookupRoom [("r", Room.mk ["a"] [])] rid2 :=
  (claim_C7_send_signal_semantics [("r", Room.mk ["a"] [])] "r" "a" "" "p").2.2
    (Room.mk ["a"] []) (by decide) (by decide) (by decide) rfl

/-- C8: leave_room on an existing room with a user_id that is not a
member (both arguments non-empty) succeeds and returns the registry
completely unchanged — same room, same membership, same mailbox, all
other rooms untouched. -/
theorem claim_C8_leave_nonmember_noop (st : ServerState) (rid uid : String)
    (room : Room) (hr : ¬ rid = "") (hu : ¬ uid = "")
    (hl : lookupRoom st rid = some room) (hmem : uid ∉ room.users) :
    leaveRoom rid uid st = (Except.ok (), st) := by
  rw [leaveRoom, if_neg (by tauto)]
  rw [hl]
  simp [hmem]

/-- Witness for C8. -/
theorem claim_C8_leave_nonmember_noop_wit :
    leaveRoom "r" "z" [("r", Room.mk ["a"] [Signal.mk "a" "b" "p" false])] =
      (Except.ok (), [("r", Room.mk ["a"] [Signal.mk "a" "b" "p" false])]) :=
  claim_C8_leave_nonmember_noop
    [("r", Room.mk ["a"] [Signal.mk "a" "b" "p" false])] "r" "z"
    (Room.mk ["a"] [Signal.mk "a" "b" "p" false])
    (by decide) (by decide) rfl (by decide)

/-- C9: poll_signals with a non-empty user_id returns exactly the
pending signals whose `to` equals that user_id (so a signal stored with
an empty `to` is never included in any poll result), and the stored
unprocessed signals with empty `to` survive the call unchanged —
unaddressed signals stay in the mailbox, undeliverable. -/
theorem claim_C9_empty_target_undeliverable (st : ServerState)
    (rid uid : String) (room : Room)
    (hr : ¬ rid = "") (hu : ¬ uid = "") (hl : lookupRoom st rid = some room) :
    (pollSignals rid uid st).1 =
      Except.ok ((room.signals.filter
        (fun s => decide (s.toId = uid) && !s.processed)).map
          (fun s => (s.fromId, s.payload))) ∧
    ∃ room2, lookupRoom (pollSignals rid uid st).2 rid = some room2 ∧
      room2.signals.filter (fun s => decide (s.toId = "") && !s.processed) =
        room.signals.filter (fun s => decide (s.toId = "") && !s.processed) := by
  constructor
  · rw [pollSignals_eq_of_some rid uid st room hr hu hl]
    show Except.ok (markMailbox uid room.signals).1 = _
    rw [markMailbox_fst]
  · refine ⟨{ room with
        signals := trimMailbox (markMailbox uid room.signals).2 }, ?_, ?_⟩
    · rw [pollSignals_eq_of_some rid uid st room hr hu hl]
      exact lookupRoom_setRoom_self st rid _
    · show (trimMailbox (markMailbox uid room.signals).2).filter _ = _
      rw [filter_trimMailbox _ (fun s hs => by
            simp only [Bool.and_eq_true] at hs
            cases hp : s.processed
            · rfl
            · rw [hp] at hs
              simp at hs) _,
          filter_markMailbox uid _ (fun s hs => by
            simp only [Bool.and_eq_true, decide_eq_true_eq] at hs
            intro hc
            exact hu (hc.symm.trans hs.1)) _]

/-- Witness for C9: a mailbox holding one unaddressed signal and one
pending signal for the poller. -/
theorem claim_C9_empty_target_undeliverable_wit :
    (pollSignals "r" "a"
      [("r", Room.mk ["a"] [Signal.mk "b" "" "p" false, Signal.mk "b" "a" "q" false])]).1 =
      Except.ok ((List.filter
        (fun s => decide (s.toId = "a") && !s.processed)
        [Signal.mk "b" "" "p" false, Signal.mk "b" "a" "q" false]).map
          (fun s => (s.fromId, s.payload))) ∧
    ∃ room2, lookupRoom (pollSignals "r" "a"
        [("r", Room.mk ["a"] [Signal.mk "b" "" "p" false, Signal.mk "b" "a" "q" false])]).2
        "r" = some room2 ∧
      room2.signals.filter (fun s => decide (s.toId = "") && !s.processed) =
        List.filter (fun s => decide (s.toId = "") && !s.processed)
          [Signal.mk "b" "" "p" false, Signal.mk "b" "a" "q" false] :=
  claim_C9_empty_target_undeliverable
    [("r", Room.mk ["a"] [Signal.mk "b" "" "p" false, Signal.mk "b" "a" "q" false])]
    "r" "a"
    (Room.mk ["a"] [Signal.mk "b" "" "p" false, Signal.mk "b" "a" "q" false])
    (by decide) (by decide) rfl

/-- C10: the retention trim runs on every successful poll, even with
zero matches: after `staleMailboxOps` the mailbox of room "r" holds 21
entries (20 stale processed ones left by an earlier poll of "b", plus
one pending); a poll by the uninvolved user "c" returns the empty
sequence with success, yet shrinks the mailbox to 20 by evicting the
processed entry that fell outside the last-20 window — an empty result
does not imply the state is unchanged. -/
theorem claim_C10_trim_on_empty_result :
    (pollSignals "r" "c" (runOps staleMailboxOps)).1 = Except.ok [] ∧
    (lookupRoom (runOps staleMailboxOps) "r").map
      (fun room => room.signals.length) = some 21 ∧
    (lookupRoom (pollSignals "r" "c" (runOps staleMailboxOps)).2 "r").map
      (fun room => room.signals.length) = some 20 := by
  refine ⟨rfl, by decide, by decide⟩
